import Mathlib

/-
Verification development for the `getters.rs` derive macro of the
amplify-derive repository.  The definitions below are a shallow embedding of
`src/getters.rs`: attribute argument maps become association lists from
argument names to argument values, `syn::Result` becomes `Except DeriveErr`,
and the emitted token streams become a structured description of the
generated methods (identifier, receiver mutability, return-expression shape,
documentation text).  The parts of the external `amplify_syn` dependency
that `getters.rs` calls (`ParametrizedAttr::check` and
`ParametrizedAttr::merged`) are not part of this repository's sources and
are modelled from the specification, as marked on their definitions.
-/

set_option autoImplicit false

namespace Getters

/-- The value attached to one argument of a parametrized attribute:
either the bare argument name (a flag, `ArgValue::None` in `amplify_syn`)
or a string literal value (`ArgValue::Literal` with a `LitStr`). -/
inductive ArgValue where
  | flag
  | lit (s : String)
deriving DecidableEq

/-- The argument map of a `ParametrizedAttr`: an association list from
argument names to their values (the source uses a `HashMap`; keys are
unique after parsing, and lookups below take the first matching entry). -/
abbrev Args : Type := List (String × ArgValue)

/-- Errors raised by the derivation, one constructor per distinct error site
of `getters.rs` and of the modelled `amplify_syn` validation.  The
`internalInconsistency` constructor models the `expect` panic inside
`getter_fn_ident` (reachable only through an internal invariant violation,
never from the public entry point). -/
inductive DeriveErr where
  | unknownArg (name : String)
  | valueProhibited (name : String)
  | litExpected
  | allCombine
  | cloneCopyConflict
  | unnamedField
  | internalInconsistency
  | notSupportedEnums
  | notSupportedUnions
  | tupleStructs
  | unitStructs
deriving DecidableEq

/-- The diagnostic text carried by each error, kept verbatim from
`src/getters.rs` for the errors raised there. -/
def DeriveErr.message : DeriveErr → String
  | .unknownArg n => "attribute `getter` has an unknown argument `" ++ n ++ "`"
  | .valueProhibited n => "argument `" ++ n ++ "` must not have a value"
  | .litExpected => "argument value must be a string literal"
  | .allCombine => "`all` attribute can't be combined with other"
  | .cloneCopyConflict => "`as_clone` and `as_copy` attributes can't be present together"
  | .unnamedField =>
      "Unnamed fields must be equipped with `#[getter(base_name = \"name\"]` attribute"
  | .internalInconsistency =>
      "Internal inconsistency in getter derivation macro implementation"
  | .notSupportedEnums => "Deriving getters is not supported in enums"
  | .notSupportedUnions => "Deriving getters is not supported in unions"
  | .tupleStructs => "Deriving getters is not supported for tuple-bases structs"
  | .unitStructs => "Deriving getters is meaningless for unit structs"

/-- Equality of fallible results is decidable, so concrete runs of the
embedded functions can be checked by evaluation. -/
instance {e a : Type} [DecidableEq e] [DecidableEq a] : DecidableEq (Except e a) := fun x y =>
  match x, y with
  | .ok v, .ok w =>
    if h : v = w then .isTrue (by rw [h])
    else .isFalse (by intro hc; injection hc with hc; exact h hc)
  | .error v, .error w =>
    if h : v = w then .isTrue (by rw [h])
    else .isFalse (by intro hc; injection hc with hc; exact h hc)
  | .ok _, .error _ => .isFalse (by intro hc; exact Except.noConfusion hc)
  | .error _, .ok _ => .isFalse (by intro hc; exact Except.noConfusion hc)

/-- Does the argument map contain an entry for key `k`
(`HashMap::contains_key`)? -/
def hasKey (args : Args) (k : String) : Bool :=
  match args with
  | [] => false
  | kv :: rest => kv.1 == k || hasKey rest k

/-- Look up the value stored for key `k` (`HashMap::get`). -/
def getArg (args : Args) (k : String) : Option ArgValue :=
  match args with
  | [] => none
  | kv :: rest => if kv.1 == k then some kv.2 else getArg rest k

/-- Insert, replacing any existing entry for the key (`HashMap::insert`). -/
def insertArg (k : String) (v : ArgValue) (args : Args) : Args :=
  (k, v) :: args.filter (fun kv => kv.1 != k)

/-- Remove the entry for the key (`HashMap::remove`). -/
def removeArg (k : String) (args : Args) : Args :=
  args.filter (fun kv => kv.1 != k)

/-- Requirement put on the value of one argument, after `getters.rs`'s use
of `amplify_syn::ArgValueReq`: `withDefault d` is
`ArgValueReq::with_default(d)` (a string value, substituted by `d` when the
argument is written as a bare flag), `optionalStr` is
`ArgValueReq::Optional(ValueClass::str())`, and `prohibited` is
`ArgValueReq::Prohibited` (the argument may only appear as a bare flag:
the src schema registers `all`, and at field level `skip`, with
`Prohibited`, and both are accepted as bare flags by the derivation). -/
inductive ArgValueReq where
  | withDefault (d : String)
  | optionalStr
  | prohibited
deriving DecidableEq

/-- The type-level requirement schema built in `GetterDerive::try_from`
(lines 69-76 of `getters.rs`). -/
def globalReq : List (String × ArgValueReq) :=
  [("prefix", .withDefault ""),
   ("all", .prohibited),
   ("as_copy", .withDefault ""),
   ("as_clone", .withDefault ""),
   ("as_ref", .withDefault "_ref"),
   ("as_mut", .withDefault "_mut")]

/-- The field-level requirement schema: the type-level one extended with
`skip` and `base_name` (lines 78-81 of `getters.rs`). -/
def localReq : List (String × ArgValueReq) :=
  globalReq ++ [("skip", .prohibited), ("base_name", .optionalStr)]

/-- Look up the requirement declared for a key in a schema. -/
def getReq (req : List (String × ArgValueReq)) (k : String) : Option ArgValueReq :=
  match req with
  | [] => none
  | kr :: rest => if kr.1 == k then some kr.2 else getReq rest k

/-- Modelled from the spec: value validation of `amplify_syn`'s
`ArgValueReq::check`, which is not part of this repository's sources.
A defaulted string argument written as a bare flag receives the declared
default value; a value-prohibited argument must stay a bare flag. -/
def checkValue (r : ArgValueReq) (k : String) (v : ArgValue) : Except DeriveErr ArgValue :=
  match r, v with
  | .withDefault d, .flag => .ok (.lit d)
  | .withDefault _, .lit s => .ok (.lit s)
  | .optionalStr, v => .ok v
  | .prohibited, .flag => .ok .flag
  | .prohibited, .lit _ => .error (.valueProhibited k)

/-- Modelled from the spec: `ParametrizedAttr::check` of the external
`amplify_syn` dependency (not under src/).  Per spec section 4.1, arguments
whose name is absent from the schema are rejected as unknown, and each
present argument's value is normalized against its declared requirement.
Absent arguments are left absent (the default-to-borrow branch of
`GetterDerive::try_from` observes their absence after `check`). -/
def check (args : Args) (req : List (String × ArgValueReq)) : Except DeriveErr Args :=
  match args with
  | [] => .ok []
  | kv :: rest =>
    match getReq req kv.1 with
    | none => .error (.unknownArg kv.1)
    | some r =>
      match checkValue r kv.1 kv.2 with
      | .error e => .error e
      | .ok v =>
        match check rest req with
        | .error e => .error e
        | .ok rest' => .ok ((kv.1, v) :: rest')

/-- The `all` shorthand handling of `GetterDerive::try_from`
(lines 85-101 of `getters.rs`): `all` must not co-occur with `as_clone`,
`as_ref` or `as_mut`; alone it is replaced by
`as_clone = ""`, `as_ref = "_ref"`, `as_mut = "_mut"`. -/
def expandAll (args : Args) : Except DeriveErr Args :=
  if hasKey args "all" then
    if hasKey args "as_clone" || hasKey args "as_ref" || hasKey args "as_mut" then
      .error .allCombine
    else
      .ok (insertArg "as_mut" (.lit "_mut")
            (insertArg "as_ref" (.lit "_ref")
              (insertArg "as_clone" (.lit "") (removeArg "all" args))))
  else .ok args

/-- The default-to-borrow rule of `GetterDerive::try_from`
(lines 110-118 of `getters.rs`): with none of the four style keys present,
`as_ref = "_ref"` is inserted. -/
def defaultBorrow (args : Args) : Args :=
  if !(hasKey args "as_clone" || hasKey args "as_copy"
        || hasKey args "as_ref" || hasKey args "as_mut") then
    insertArg "as_ref" (.lit "_ref") args
  else args

/-- The resolved per-attribute configuration (`struct GetterDerive` of
`getters.rs`; the source field `prefix` is a Lean keyword and is embedded
as `pfx`). -/
structure GetterDerive where
  pfx : String
  skip : Bool
  copy : Bool
  base : Option String
  main : Option String
  as_ref : Option String
  as_mut : Option String
deriving DecidableEq

/-- `ArgValue -> LitStr` conversion (`a.clone().try_into()` in the source):
only a string literal converts; a bare flag is an error. -/
def argToLit : ArgValue → Except DeriveErr String
  | .lit s => .ok s
  | .flag => .error .litExpected

/-- `attr.args.get(k).map(try_into).transpose()` of the source. -/
def optLit (args : Args) (k : String) : Except DeriveErr (Option String) :=
  match getArg args k with
  | none => .ok none
  | some v =>
    match argToLit v with
    | .error e => .error e
    | .ok s => .ok (some s)

/-- `attr.args.get("as_copy").or(attr.args.get("as_clone"))` of the
source. -/
def mainArg (args : Args) : Option ArgValue :=
  match getArg args "as_copy" with
  | some v => some v
  | none => getArg args "as_clone"

/-- The transposed conversion of the main-accessor suffix. -/
def optLitMain (args : Args) : Except DeriveErr (Option String) :=
  match mainArg args with
  | none => .ok none
  | some v =>
    match argToLit v with
    | .error e => .error e
    | .ok s => .ok (some s)

/-- Construction of the `GetterDerive` record from the validated argument
map (lines 120-150 of `getters.rs`). -/
def buildGetter (args : Args) : Except DeriveErr GetterDerive :=
  match optLit args "prefix" with
  | .error e => .error e
  | .ok p =>
    match optLit args "base_name" with
    | .error e => .error e
    | .ok b =>
      match optLitMain args with
      | .error e => .error e
      | .ok m =>
        match optLit args "as_ref" with
        | .error e => .error e
        | .ok r =>
          match optLit args "as_mut" with
          | .error e => .error e
          | .ok mu =>
            .ok { pfx := p.getD "",
                  skip := hasKey args "skip",
                  copy := hasKey args "as_copy",
                  base := b,
                  main := m,
                  as_ref := r,
                  as_mut := mu }

/-- The requirement schema selected for one validation pass: the type-level
schema for the global attribute, the extended one for field attributes. -/
def reqFor (global : Bool) : List (String × ArgValueReq) :=
  if global then globalReq else localReq

/-- `GetterDerive::try_from` (lines 68-151 of `getters.rs`).  The source
mutates the borrowed `ParametrizedAttr`; the embedding returns the mutated
argument map alongside the resolved configuration. -/
def GetterDerive.try_from (args : Args) (global : Bool) :
    Except DeriveErr (GetterDerive × Args) :=
  match check args (reqFor global) with
  | .error e => .error e
  | .ok args0 =>
    match expandAll args0 with
    | .error e => .error e
    | .ok args1 =>
      if hasKey args1 "as_clone" && hasKey args1 "as_copy" then
        .error .cloneCopyConflict
      else
        let args2 := defaultBorrow args1
        match buildGetter args2 with
        | .error e => .error e
        | .ok g => .ok (g, args2)

/-- The closed set of accessor styles (`enum GetterMethod`). -/
inductive GetterMethod where
  | Main (copy : Bool)
  | AsRef
  | AsMut
deriving DecidableEq

/-- `GetterMethod::doc_phrase`. -/
def GetterMethod.doc_phrase : GetterMethod → String
  | .Main true => "returning copy of"
  | .Main false => "cloning"
  | .AsRef => "borrowing"
  | .AsMut => "returning mutable borrow of"

/-- `GetterMethod::mut_prefix`: whether the receiver is `&mut self`. -/
def GetterMethod.mutPre : GetterMethod → Bool
  | .AsMut => true
  | _ => false

/-- `GetterMethod::ret_prefix`: the textual prefix of the return type and
return expression. -/
def GetterMethod.retPre : GetterMethod → String
  | .Main _ => ""
  | .AsRef => "&"
  | .AsMut => "&mut"

/-- `GetterMethod::ret_suffix`: the textual suffix of the return
expression. -/
def GetterMethod.retSuf : GetterMethod → String
  | .Main false => ".clone()"
  | _ => ""

/-- `GetterDerive::all_methods` (lines 200-212 of `getters.rs`): the
enabled styles, pushed in the fixed order Main, AsRef, AsMut. -/
def GetterDerive.all_methods (g : GetterDerive) : List GetterMethod :=
  (if g.main.isSome then [GetterMethod.Main g.copy] else [])
    ++ (if g.as_ref.isSome then [GetterMethod.AsRef] else [])
    ++ (if g.as_mut.isSome then [GetterMethod.AsMut] else [])

/-- The name-suffix option consulted for a style inside
`getter_fn_ident` (the `match method` on lines 230-234). -/
def styleSuffix (g : GetterDerive) (m : GetterMethod) : Option String :=
  match m with
  | .Main _ => g.main
  | .AsRef => g.as_ref
  | .AsMut => g.as_mut

/-- `GetterDerive::getter_fn_ident` (lines 214-241 of `getters.rs`):
the generated identifier is `prefix + base_string + suffix`, where
`base_string` is the explicit `base_name` override if given, otherwise the
field's own name; with neither, the unnamed-field error is returned.  The
`expect` on the suffix option is modelled by `internalInconsistency`. -/
def GetterDerive.getter_fn_ident (g : GetterDerive) (m : GetterMethod)
    (field_name : Option String) : Except DeriveErr String :=
  match (match g.base with | some b => some b | none => field_name) with
  | none => .error .unnamedField
  | some base_string =>
    match styleSuffix g m with
    | none => .error .internalInconsistency
    | some name_lit => .ok (g.pfx ++ base_string ++ name_lit)

/-- `GetterDerive::getter_fn_doc` (lines 243-270): the generated
documentation sentence; an unnamed field is referred to by its index. -/
def getter_fn_doc (m : GetterMethod) (struct_name : String)
    (field_name : Option String) (field_index : Nat) : String :=
  "Method " ++ m.doc_phrase ++ " [`" ++ struct_name ++ "::"
    ++ (match field_name with | some n => n | none => toString field_index)
    ++ "`] field.\n"

/-- One generated accessor, the structured counterpart of the
`quote_spanned!` output on lines 339-345 of `getters.rs`. -/
structure GenMethod where
  name : String
  fnDoc : String
  fieldDoc : Option String
  mutReceiver : Bool
  retPre : String
  retSuf : String
  ty : String
  fieldAccess : String
deriving DecidableEq

/-- One named field of the input record: its identifier (present by the
`syn` invariant on `Fields::Named`), declared type, parsed `#[getter(...)]`
arguments and optional pre-existing `#[doc]` attribute text. -/
structure NamedField where
  name : String
  ty : String
  attrs : Args
  doc : Option String
deriving DecidableEq

/-- The field list shape of a struct (`syn::Fields`). -/
inductive FieldsKind where
  | named (fields : List NamedField)
  | unnamed
  | unit
deriving DecidableEq

/-- The item kind of the derive input (`syn::Data`). -/
inductive Data where
  | dstruct (fields : FieldsKind)
  | denum
  | dunion
deriving DecidableEq

/-- The derive input: item name, generics (carried through verbatim),
parsed type-level `#[getter(...)]` arguments and item body. -/
structure DeriveInput where
  ident : String
  generics : String
  attrs : Args
  data : Data
deriving DecidableEq

/-- The generated output block (`impl ... { methods }`). -/
structure ImplBlock where
  struct_name : String
  generics : String
  methods : List GenMethod
deriving DecidableEq

/-- Modelled from the spec: `ParametrizedAttr::merged` of the external
`amplify_syn` dependency (not under src/).  Per spec section 4.1, merging
combines the two argument maps with local entries overriding global entries
of the same key. -/
def mergeArgs (globalArgs localArgs : Args) : Args :=
  globalArgs.filter (fun kv => !(hasKey localArgs kv.1)) ++ localArgs

/-- The loop body of `derive_field_methods` (lines 331-346): one generated
method per enabled style, in `all_methods` order. -/
def methodsLoop (getter : GetterDerive) (field : NamedField)
    (struct_name : String) (index : Nat) :
    List GetterMethod → Except DeriveErr (List GenMethod)
  | [] => .ok []
  | m :: ms =>
    match getter.getter_fn_ident m (some field.name) with
    | .error e => .error e
    | .ok fn_name =>
      match methodsLoop getter field struct_name index ms with
      | .error e => .error e
      | .ok rest =>
        .ok ({ name := fn_name,
               fnDoc := getter_fn_doc m struct_name (some field.name) index,
               fieldDoc := field.doc,
               mutReceiver := m.mutPre,
               retPre := m.retPre,
               retSuf := m.retSuf,
               ty := field.ty,
               fieldAccess := field.name } :: rest)

/-- `derive_field_methods` (lines 310-349 of `getters.rs`): validate the
field-level arguments on their own, merge the (already validated and
mutated) type-level arguments with the mutated field-level ones, resolve,
honour `skip`, and emit one method per enabled style. -/
def derive_field_methods (field : NamedField) (index : Nat)
    (struct_name : String) (global_param : Args) :
    Except DeriveErr (List GenMethod) :=
  match GetterDerive.try_from field.attrs false with
  | .error e => .error e
  | .ok (_, local_param) =>
    match GetterDerive.try_from (mergeArgs global_param local_param) false with
    | .error e => .error e
    | .ok (getter, _) =>
      if getter.skip then .ok []
      else methodsLoop getter field struct_name index getter.all_methods

/-- The per-field iteration of `derive_struct_impl` (lines 283-291),
with the running field index. -/
def deriveFields (fields : List NamedField) (index : Nat)
    (struct_name : String) (global_param : Args) :
    Except DeriveErr (List GenMethod) :=
  match fields with
  | [] => .ok []
  | f :: rest =>
    match derive_field_methods f index struct_name global_param with
    | .error e => .error e
    | .ok ms =>
      match deriveFields rest (index + 1) struct_name global_param with
      | .error e => .error e
      | .ok more => .ok (ms ++ more)

/-- `derive_struct_impl` (lines 273-308 of `getters.rs`). -/
def derive_struct_impl (fields : FieldsKind) (struct_name generics : String)
    (global_param : Args) : Except DeriveErr ImplBlock :=
  match fields with
  | .named fs =>
    match deriveFields fs 0 struct_name global_param with
    | .error e => .error e
    | .ok ms => .ok { struct_name := struct_name, generics := generics, methods := ms }
  | .unnamed => .error .tupleStructs
  | .unit => .error .unitStructs

/-- The public entry point `derive` (lines 28-53 of `getters.rs`): the
type-level arguments are validated first — and, the attribute being passed
by mutable reference, the validation's mutations (notably the
default-to-borrow insertion) are kept in the global parameter that is later
merged into every field — then the item shape is dispatched. -/
def derive (input : DeriveInput) : Except DeriveErr ImplBlock :=
  match GetterDerive.try_from input.attrs true with
  | .error e => .error e
  | .ok (_, global_param) =>
    match input.data with
    | .dstruct fields => derive_struct_impl fields input.ident input.generics global_param
    | .denum => .error .notSupportedEnums
    | .dunion => .error .notSupportedUnions

/-- Modelled from the spec: the simple getters driver (spec section 4.5)
belongs to this repository but its source file is not under src/ (only the
configurable driver of `getters.rs` is).  Per the spec it unconditionally
emits exactly one borrowing accessor per named field, named identically to
the field, with a generated documentation sentence followed by any
pre-existing field documentation, and it rejects the same unsupported
shapes as the configurable driver with equivalent errors. -/
def simple_derive (input : DeriveInput) : Except DeriveErr ImplBlock :=
  match input.data with
  | .dstruct (.named fields) =>
    .ok { struct_name := input.ident,
          generics := input.generics,
          methods := fields.map (fun f =>
            { name := f.name,
              fnDoc := getter_fn_doc .AsRef input.ident (some f.name) 0,
              fieldDoc := f.doc,
              mutReceiver := false,
              retPre := "&",
              retSuf := "",
              ty := f.ty,
              fieldAccess := f.name }) }
  | .dstruct .unnamed => .error .tupleStructs
  | .dstruct .unit => .error .unitStructs
  | .denum => .error .notSupportedEnums
  | .dunion => .error .notSupportedUnions

/-- The `Point { x: int, y: int }` record of the spec scenarios, with the
configurable driver, no type-level configuration, field `x` annotated with
the bare `as_copy` flag and field `y` unannotated. -/
def c1input : DeriveInput :=
  { ident := "Point", generics := "", attrs := [],
    data := .dstruct (.named
      [ { name := "x", ty := "int", attrs := [("as_copy", .flag)], doc := none },
        { name := "y", ty := "int", attrs := [], doc := none } ]) }

/-- A field carrying the bare `skip` flag. -/
def c3field : NamedField :=
  { name := "x", ty := "int", attrs := [("skip", .flag)], doc := none }

/-- An input whose type-level attribute carries the `skip` flag. -/
def c3input : DeriveInput :=
  { ident := "S", generics := "", attrs := [("skip", .flag)],
    data := .dstruct (.named [{ name := "x", ty := "int", attrs := [], doc := none }]) }

/-- A resolved configuration with an explicit base-name override. -/
def c6g : GetterDerive :=
  { pfx := "get_", skip := false, copy := false, base := some "field",
    main := none, as_ref := some "_ref", as_mut := none }

/-- The same configuration without the base-name override. -/
def c6gNoBase : GetterDerive :=
  { pfx := "get_", skip := false, copy := false, base := none,
    main := none, as_ref := some "_ref", as_mut := none }

/-- The configuration resolved from an empty argument map (default
borrow only). -/
def c2g : GetterDerive :=
  { pfx := "", skip := false, copy := false, base := none,
    main := none, as_ref := some "_ref", as_mut := none }

/-- The configuration resolved from a bare `all` flag. -/
def c4g : GetterDerive :=
  { pfx := "", skip := false, copy := false, base := none,
    main := some "", as_ref := some "_ref", as_mut := some "_mut" }

/-- A tagged-union (enum) derive input. -/
def c8enum : DeriveInput :=
  { ident := "E", generics := "", attrs := [], data := .denum }

/-- An untagged-union derive input. -/
def c8union : DeriveInput :=
  { ident := "U", generics := "", attrs := [], data := .dunion }

/-- A tuple-struct derive input. -/
def c8tuple : DeriveInput :=
  { ident := "T", generics := "", attrs := [], data := .dstruct .unnamed }

/-- A unit-struct derive input. -/
def c8unit : DeriveInput :=
  { ident := "Z", generics := "", attrs := [], data := .dstruct .unit }

/-- A record with an empty named-field list (derivation succeeds with an
empty method block). -/
def c8empty : DeriveInput :=
  { ident := "S", generics := "", attrs := [], data := .dstruct (.named []) }

/-- The unannotated `Point { x: int, y: int }` record. -/
def c9input : DeriveInput :=
  { ident := "Point", generics := "", attrs := [],
    data := .dstruct (.named
      [ { name := "x", ty := "int", attrs := [], doc := none },
        { name := "y", ty := "int", attrs := [], doc := none } ]) }

end Getters

namespace Getters

theorem beq_false_of_ne {k k' : String} (h : k ≠ k') : (k == k') = false := by
  simp [h]

theorem hasKey_filter_ne {a : Args} {k k' : String} (h : k' ≠ k) :
    hasKey (a.filter (fun kv => kv.1 != k)) k' = hasKey a k' := by
  induction a with
  | nil => rfl
  | cons kv rest ih =>
    rw [List.filter_cons]
    by_cases hk : kv.1 = k
    · have h1 : (kv.1 != k) = false := by simp [hk]
      have h2 : (kv.1 == k') = false := by simp [hk, Ne.symm h]
      rw [h1]
      simp only [Bool.false_eq_true, if_false, hasKey, h2, Bool.false_or, ih]
    · have h1 : (kv.1 != k) = true := by simp [hk]
      rw [h1]
      simp only [if_true, hasKey, ih]

theorem hasKey_insertArg_self {a : Args} {k : String} {v : ArgValue} :
    hasKey (insertArg k v a) k = true := by
  simp [insertArg, hasKey]

theorem hasKey_insertArg_ne {a : Args} {k k' : String} {v : ArgValue} (h : k' ≠ k) :
    hasKey (insertArg k v a) k' = hasKey a k' := by
  have h2 : (k == k') = false := beq_false_of_ne (Ne.symm h)
  simp only [insertArg, hasKey, h2, Bool.false_or, hasKey_filter_ne h]

theorem hasKey_removeArg_ne {a : Args} {k k' : String} (h : k' ≠ k) :
    hasKey (removeArg k a) k' = hasKey a k' := by
  simp only [removeArg, hasKey_filter_ne h]

theorem getArg_filter_ne {a : Args} {k k' : String} (h : k' ≠ k) :
    getArg (a.filter (fun kv => kv.1 != k)) k' = getArg a k' := by
  induction a with
  | nil => rfl
  | cons kv rest ih =>
    rw [List.filter_cons]
    by_cases hk : kv.1 = k
    · have h1 : (kv.1 != k) = false := by simp [hk]
      have h2 : ¬(kv.1 == k') := by simp [hk, Ne.symm h]
      rw [h1]
      simp only [Bool.false_eq_true, if_false, getArg, h2, ih, if_neg]
    · have h1 : (kv.1 != k) = true := by simp [hk]
      rw [h1]
      simp only [if_true, getArg, ih]

theorem getArg_insertArg_self {a : Args} {k : String} {v : ArgValue} :
    getArg (insertArg k v a) k = some v := by
  simp [insertArg, getArg]

theorem getArg_insertArg_ne {a : Args} {k k' : String} {v : ArgValue} (h : k' ≠ k) :
    getArg (insertArg k v a) k' = getArg a k' := by
  have h2 : (k == k') = false := beq_false_of_ne (Ne.symm h)
  simp only [insertArg, getArg, h2, Bool.false_eq_true, if_false, getArg_filter_ne h]

theorem getArg_removeArg_ne {a : Args} {k k' : String} (h : k' ≠ k) :
    getArg (removeArg k a) k' = getArg a k' := by
  simp only [removeArg, getArg_filter_ne h]

theorem getArg_isSome_eq_hasKey {a : Args} {k : String} :
    (getArg a k).isSome = hasKey a k := by
  induction a with
  | nil => rfl
  | cons kv rest ih =>
    by_cases hk : kv.1 = k
    · simp [getArg, hasKey, hk]
    · simp [getArg, hasKey, hk, ih]

theorem hasKey_append {a b : Args} {k : String} :
    hasKey (a ++ b) k = (hasKey a k || hasKey b k) := by
  induction a with
  | nil => rfl
  | cons kv rest ih => simp [hasKey, ih, Bool.or_assoc]

theorem hasKey_mergeArgs {g l : Args} {k : String} :
    hasKey (mergeArgs g l) k = (hasKey g k || hasKey l k) := by
  unfold mergeArgs
  rw [hasKey_append]
  have hfil : hasKey (g.filter (fun kv => !(hasKey l kv.1))) k
      = (hasKey g k && !(hasKey l k)) := by
    induction g with
    | nil => rfl
    | cons kv rest ih =>
      rw [List.filter_cons]
      by_cases hk : kv.1 = k
      · cases hkl : hasKey l k
        · have hb : (!(hasKey l kv.1)) = true := by rw [hk, hkl]; rfl
          rw [hb]
          simp only [if_true, hasKey, ih, hkl]
          cases hkv : (kv.1 == k) <;> simp
        · have hb : (!(hasKey l kv.1)) = false := by rw [hk, hkl]; rfl
          rw [hb]
          have hkv : (kv.1 == k) = true := by simp [hk]
          simp only [Bool.false_eq_true, if_false, ih, hasKey, hkv, hkl,
            Bool.true_or, Bool.not_true, Bool.and_false]
      · have hkv : (kv.1 == k) = false := beq_false_of_ne hk
        cases hb : (!(hasKey l kv.1))
        · simp only [Bool.false_eq_true, if_false, ih, hasKey, hkv, Bool.false_or]
        · simp only [if_true, hasKey, hkv, Bool.false_or, ih]
  rw [hfil]
  cases hasKey g k <;> cases hasKey l k <;> rfl

end Getters

namespace Getters

theorem check_nil {req : List (String × ArgValueReq)} : check [] req = .ok [] := rfl

theorem check_hasKey {a a' : Args} {req : List (String × ArgValueReq)}
    (h : check a req = .ok a') (k : String) : hasKey a' k = hasKey a k := by
  induction a generalizing a' with
  | nil =>
    rw [check_nil] at h
    injection h with h
    subst h
    rfl
  | cons kv rest ih =>
    cases hg : getReq req kv.1 with
    | none =>
      simp only [check, hg] at h
      exact Except.noConfusion h
    | some r =>
      cases hcv : checkValue r kv.1 kv.2 with
      | error e =>
        simp only [check, hg, hcv] at h
        exact Except.noConfusion h
      | ok v0 =>
        cases hrest : check rest req with
        | error e =>
          simp only [check, hg, hcv, hrest] at h
          exact Except.noConfusion h
        | ok rest' =>
          simp only [check, hg, hcv, hrest] at h
          injection h with h
          subst h
          simp only [hasKey, ih hrest]

theorem checkValue_lit {r : ArgValueReq} {k : String} {d : String} {v v' : ArgValue}
    (hr : r = .withDefault d) (h : checkValue r k v = .ok v') : ∃ s, v' = .lit s := by
  subst hr
  cases v <;> simp only [checkValue] at h <;> injection h with h <;> exact ⟨_, h.symm⟩

theorem check_getArg_wd {a a' : Args} {req : List (String × ArgValueReq)}
    {k d : String} (hreq : getReq req k = some (.withDefault d))
    (h : check a req = .ok a') {v : ArgValue} (hv : getArg a' k = some v) :
    ∃ s, v = .lit s := by
  induction a generalizing a' with
  | nil =>
    rw [check_nil] at h
    injection h with h
    subst h
    exact absurd hv (by simp [getArg])
  | cons kv rest ih =>
    cases hg : getReq req kv.1 with
    | none =>
      simp only [check, hg] at h
      exact Except.noConfusion h
    | some r =>
      cases hcv : checkValue r kv.1 kv.2 with
      | error e =>
        simp only [check, hg, hcv] at h
        exact Except.noConfusion h
      | ok v0 =>
        cases hrest : check rest req with
        | error e =>
          simp only [check, hg, hcv, hrest] at h
          exact Except.noConfusion h
        | ok rest' =>
          simp only [check, hg, hcv, hrest] at h
          injection h with h
          subst h
          by_cases hk : kv.1 = k
          · have hvv : v0 = v := by
              simpa [getArg, hk] using hv
            subst hvv
            have hr : r = .withDefault d := by
              rw [hk, hreq] at hg
              injection hg with hg
              exact hg.symm
            exact checkValue_lit hr hcv
          · have hv' : getArg rest' k = some v := by
              simpa [getArg, hk] using hv
            exact ih hrest hv'

theorem check_err_of_unknown {a : Args} {req : List (String × ArgValueReq)}
    {k : String} (hk : hasKey a k = true) (hreq : getReq req k = none) :
    ∃ e, check a req = .error e := by
  induction a with
  | nil => simp [hasKey] at hk
  | cons kv rest ih =>
    by_cases hkv : kv.1 = k
    · refine ⟨.unknownArg kv.1, ?_⟩
      have hg : getReq req kv.1 = none := by rw [hkv]; exact hreq
      simp only [check, hg]
    · have hrest : hasKey rest k = true := by
        have hb : (kv.1 == k) = false := beq_false_of_ne hkv
        simpa [hasKey, hb] using hk
      obtain ⟨e, he⟩ := ih hrest
      cases hg : getReq req kv.1 with
      | none => exact ⟨.unknownArg kv.1, by simp only [check, hg]⟩
      | some r =>
        cases hcv : checkValue r kv.1 kv.2 with
        | error e' => exact ⟨e', by simp only [check, hg, hcv]⟩
        | ok v => exact ⟨e, by simp only [check, hg, hcv, he]⟩

theorem checkValue_err_shape {r : ArgValueReq} {k : String} {v : ArgValue}
    {e : DeriveErr} (h : checkValue r k v = .error e) : e = .valueProhibited k := by
  cases r <;> cases v <;> simp only [checkValue] at h <;>
    first
    | (injection h with h; exact h.symm)
    | exact Except.noConfusion h

theorem check_err_ne_unnamed {a : Args} {req : List (String × ArgValueReq)}
    {e : DeriveErr} (h : check a req = .error e) : e ≠ .unnamedField := by
  induction a with
  | nil =>
    rw [check_nil] at h
    exact Except.noConfusion h
  | cons kv rest ih =>
    cases hg : getReq req kv.1 with
    | none =>
      simp only [check, hg] at h
      injection h with h
      subst h
      intro hc
      cases hc
    | some r =>
      cases hcv : checkValue r kv.1 kv.2 with
      | error e' =>
        simp only [check, hg, hcv] at h
        injection h with h
        subst h
        rw [checkValue_err_shape hcv]
        intro hc
        cases hc
      | ok v0 =>
        cases hrest : check rest req with
        | error e' =>
          simp only [check, hg, hcv, hrest] at h
          injection h with h
          subst h
          exact ih hrest
        | ok rest' =>
          simp only [check, hg, hcv, hrest] at h
          exact Except.noConfusion h

theorem expandAll_err {a : Args} {e : DeriveErr} (h : expandAll a = .error e) :
    e = .allCombine := by
  unfold expandAll at h
  split at h
  · split at h
    · injection h with h; exact h.symm
    · exact absurd h (by simp)
  · exact absurd h (by simp)

theorem expandAll_ok_of_no_all {a : Args} (h : hasKey a "all" = false) :
    expandAll a = .ok a := by
  simp [expandAll, h]

theorem expandAll_hasKey {a a' : Args} (h : expandAll a = .ok a') (k : String)
    (h1 : k ≠ "all") (h2 : k ≠ "as_clone") (h3 : k ≠ "as_ref") (h4 : k ≠ "as_mut") :
    hasKey a' k = hasKey a k := by
  unfold expandAll at h
  split at h
  · split at h
    · exact absurd h (by simp)
    · injection h with h
      subst h
      rw [hasKey_insertArg_ne h4, hasKey_insertArg_ne h3, hasKey_insertArg_ne h2,
        hasKey_removeArg_ne h1]
  · injection h with h
    subst h
    rfl

theorem expandAll_getArg {a a' : Args} (h : expandAll a = .ok a') (k : String)
    (h1 : k ≠ "all") (h2 : k ≠ "as_clone") (h3 : k ≠ "as_ref") (h4 : k ≠ "as_mut") :
    getArg a' k = getArg a k := by
  unfold expandAll at h
  split at h
  · split at h
    · exact absurd h (by simp)
    · injection h with h
      subst h
      rw [getArg_insertArg_ne h4, getArg_insertArg_ne h3, getArg_insertArg_ne h2,
        getArg_removeArg_ne h1]
  · injection h with h
    subst h
    rfl

theorem defaultBorrow_hasKey_ne {a : Args} {k : String} (h : k ≠ "as_ref") :
    hasKey (defaultBorrow a) k = hasKey a k := by
  unfold defaultBorrow
  split
  · rw [hasKey_insertArg_ne h]
  · rfl

theorem defaultBorrow_getArg_ne {a : Args} {k : String} (h : k ≠ "as_ref") :
    getArg (defaultBorrow a) k = getArg a k := by
  unfold defaultBorrow
  split
  · rw [getArg_insertArg_ne h]
  · rfl

end Getters

namespace Getters

theorem optLit_err {a : Args} {k : String} {e : DeriveErr}
    (h : optLit a k = .error e) : e = .litExpected := by
  unfold optLit at h
  cases hg : getArg a k with
  | none => rw [hg] at h; exact Except.noConfusion h
  | some v =>
    rw [hg] at h
    cases v with
    | flag =>
      simp only [argToLit] at h
      injection h with h
      exact h.symm
    | lit s =>
      simp only [argToLit] at h
      exact Except.noConfusion h

theorem optLitMain_err {a : Args} {e : DeriveErr}
    (h : optLitMain a = .error e) : e = .litExpected := by
  unfold optLitMain at h
  cases hg : mainArg a with
  | none => rw [hg] at h; exact Except.noConfusion h
  | some v =>
    rw [hg] at h
    cases v with
    | flag =>
      simp only [argToLit] at h
      injection h with h
      exact h.symm
    | lit s =>
      simp only [argToLit] at h
      exact Except.noConfusion h

theorem buildGetter_ok {a : Args} {g : GetterDerive} (h : buildGetter a = .ok g) :
    g.skip = hasKey a "skip" ∧ g.copy = hasKey a "as_copy"
      ∧ optLitMain a = .ok g.main
      ∧ optLit a "as_ref" = .ok g.as_ref
      ∧ optLit a "as_mut" = .ok g.as_mut
      ∧ optLit a "base_name" = .ok g.base := by
  cases hp : optLit a "prefix" with
  | error e => simp only [buildGetter, hp] at h; exact Except.noConfusion h
  | ok p =>
  cases hb : optLit a "base_name" with
  | error e => simp only [buildGetter, hp, hb] at h; exact Except.noConfusion h
  | ok b =>
  cases hm : optLitMain a with
  | error e => simp only [buildGetter, hp, hb, hm] at h; exact Except.noConfusion h
  | ok m =>
  cases hr : optLit a "as_ref" with
  | error e => simp only [buildGetter, hp, hb, hm, hr] at h; exact Except.noConfusion h
  | ok r =>
  cases hmu : optLit a "as_mut" with
  | error e => simp only [buildGetter, hp, hb, hm, hr, hmu] at h; exact Except.noConfusion h
  | ok mu =>
    simp only [buildGetter, hp, hb, hm, hr, hmu] at h
    injection h with h
    subst h
    exact ⟨rfl, rfl, rfl, rfl, rfl, rfl⟩

theorem buildGetter_err {a : Args} {e : DeriveErr} (h : buildGetter a = .error e) :
    e = .litExpected := by
  cases hp : optLit a "prefix" with
  | error e' =>
    simp only [buildGetter, hp] at h
    injection h with h
    subst h
    exact optLit_err hp
  | ok p =>
  cases hb : optLit a "base_name" with
  | error e' =>
    simp only [buildGetter, hp, hb] at h
    injection h with h
    subst h
    exact optLit_err hb
  | ok b =>
  cases hm : optLitMain a with
  | error e' =>
    simp only [buildGetter, hp, hb, hm] at h
    injection h with h
    subst h
    exact optLitMain_err hm
  | ok m =>
  cases hr : optLit a "as_ref" with
  | error e' =>
    simp only [buildGetter, hp, hb, hm, hr] at h
    injection h with h
    subst h
    exact optLit_err hr
  | ok r =>
  cases hmu : optLit a "as_mut" with
  | error e' =>
    simp only [buildGetter, hp, hb, hm, hr, hmu] at h
    injection h with h
    subst h
    exact optLit_err hmu
  | ok mu =>
    simp only [buildGetter, hp, hb, hm, hr, hmu] at h
    exact Except.noConfusion h

theorem try_from_ok {a : Args} {gl : Bool} {g : GetterDerive} {a' : Args}
    (h : GetterDerive.try_from a gl = .ok (g, a')) :
    ∃ a0 a1, check a (reqFor gl) = .ok a0
      ∧ expandAll a0 = .ok a1
      ∧ (hasKey a1 "as_clone" && hasKey a1 "as_copy") = false
      ∧ a' = defaultBorrow a1
      ∧ buildGetter (defaultBorrow a1) = .ok g := by
  cases hc : check a (reqFor gl) with
  | error e =>
    simp only [GetterDerive.try_from, hc] at h
    exact Except.noConfusion h
  | ok a0 =>
  cases he : expandAll a0 with
  | error e =>
    simp only [GetterDerive.try_from, hc, he] at h
    exact Except.noConfusion h
  | ok a1 =>
  cases hcc : (hasKey a1 "as_clone" && hasKey a1 "as_copy") with
  | true =>
    simp only [GetterDerive.try_from, hc, he, hcc, if_true] at h
    exact Except.noConfusion h
  | false =>
  cases hb : buildGetter (defaultBorrow a1) with
  | error e =>
    simp only [GetterDerive.try_from, hc, he, hcc, Bool.false_eq_true, if_false, hb] at h
    exact Except.noConfusion h
  | ok g0 =>
    simp only [GetterDerive.try_from, hc, he, hcc, Bool.false_eq_true, if_false, hb] at h
    injection h with h
    rw [Prod.mk.injEq] at h
    obtain ⟨h1, h2⟩ := h
    subst h1
    subst h2
    exact ⟨a0, a1, rfl, he, hcc, rfl, hb⟩

theorem try_from_err_ne_unnamed {a : Args} {gl : Bool} {e : DeriveErr}
    (h : GetterDerive.try_from a gl = .error e) : e ≠ .unnamedField := by
  cases hc : check a (reqFor gl) with
  | error e' =>
    simp only [GetterDerive.try_from, hc] at h
    injection h with h
    subst h
    exact check_err_ne_unnamed hc
  | ok a0 =>
  cases he : expandAll a0 with
  | error e' =>
    simp only [GetterDerive.try_from, hc, he] at h
    injection h with h
    subst h
    rw [expandAll_err he]
    intro hx
    cases hx
  | ok a1 =>
  cases hcc : (hasKey a1 "as_clone" && hasKey a1 "as_copy") with
  | true =>
    simp only [GetterDerive.try_from, hc, he, hcc, if_true] at h
    injection h with h
    subst h
    intro hx
    cases hx
  | false =>
  cases hb : buildGetter (defaultBorrow a1) with
  | error e' =>
    simp only [GetterDerive.try_from, hc, he, hcc, Bool.false_eq_true, if_false, hb] at h
    injection h with h
    subst h
    rw [buildGetter_err hb]
    intro hx
    cases hx
  | ok g0 =>
    simp only [GetterDerive.try_from, hc, he, hcc, Bool.false_eq_true, if_false, hb] at h
    exact Except.noConfusion h

theorem try_from_ok_skip {a : Args} {gl : Bool} {g : GetterDerive} {a' : Args}
    (h : GetterDerive.try_from a gl = .ok (g, a')) :
    g.skip = hasKey a "skip" ∧ hasKey a' "skip" = hasKey a "skip" := by
  obtain ⟨a0, a1, hc, he, hcc, ha', hb⟩ := try_from_ok h
  have h1 : hasKey (defaultBorrow a1) "skip" = hasKey a1 "skip" :=
    defaultBorrow_hasKey_ne (by decide)
  have h2 : hasKey a1 "skip" = hasKey a0 "skip" :=
    expandAll_hasKey he _ (by decide) (by decide) (by decide) (by decide)
  have h3 : hasKey a0 "skip" = hasKey a "skip" := check_hasKey hc _
  have hskip := (buildGetter_ok hb).1
  subst ha'
  constructor
  · rw [hskip, h1, h2, h3]
  · rw [h1, h2, h3]

end Getters

namespace Getters

theorem getter_fn_ident_named_err {g : GetterDerive} {m : GetterMethod}
    {n : String} {e : DeriveErr} (h : g.getter_fn_ident m (some n) = .error e) :
    e = .internalInconsistency := by
  cases hb : g.base with
  | some b =>
    simp only [GetterDerive.getter_fn_ident, hb] at h
    cases hs : styleSuffix g m <;> simp only [hs] at h
    · injection h with h
      exact h.symm
    · exact Except.noConfusion h
  | none =>
    simp only [GetterDerive.getter_fn_ident, hb] at h
    cases hs : styleSuffix g m <;> simp only [hs] at h
    · injection h with h
      exact h.symm
    · exact Except.noConfusion h

theorem all_methods_ne_nil {g : GetterDerive}
    (h : (g.main.isSome || g.as_ref.isSome || g.as_mut.isSome) = true) :
    g.all_methods ≠ [] := by
  unfold GetterDerive.all_methods
  cases hm : g.main <;> cases hr : g.as_ref <;> cases hmu : g.as_mut <;>
    simp_all

theorem methodsLoop_err_ne_unnamed {getter : GetterDerive} {field : NamedField}
    {sn : String} {i : Nat} {ms : List GetterMethod} {e : DeriveErr}
    (h : methodsLoop getter field sn i ms = .error e) : e ≠ .unnamedField := by
  induction ms with
  | nil =>
    simp only [methodsLoop] at h
    exact Except.noConfusion h
  | cons m rest ih =>
    cases hfi : getter.getter_fn_ident m (some field.name) with
    | error e' =>
      simp only [methodsLoop, hfi] at h
      injection h with h
      subst h
      rw [getter_fn_ident_named_err hfi]
      intro hx
      cases hx
    | ok fn =>
      cases hrec : methodsLoop getter field sn i rest with
      | error e' =>
        simp only [methodsLoop, hfi, hrec] at h
        injection h with h
        subst h
        exact ih hrec
      | ok more =>
        simp only [methodsLoop, hfi, hrec] at h
        exact Except.noConfusion h

theorem derive_field_methods_err_ne_unnamed {field : NamedField} {i : Nat}
    {sn : String} {gp : Args} {e : DeriveErr}
    (h : derive_field_methods field i sn gp = .error e) : e ≠ .unnamedField := by
  cases hl : GetterDerive.try_from field.attrs false with
  | error e' =>
    simp only [derive_field_methods, hl] at h
    injection h with h
    subst h
    exact try_from_err_ne_unnamed hl
  | ok pr =>
    cases pr with
    | mk g0 lp =>
    cases hm : GetterDerive.try_from (mergeArgs gp lp) false with
    | error e' =>
      simp only [derive_field_methods, hl, hm] at h
      injection h with h
      subst h
      exact try_from_err_ne_unnamed hm
    | ok pr2 =>
      cases pr2 with
      | mk getter a2 =>
      cases hs : getter.skip with
      | true =>
        simp only [derive_field_methods, hl, hm, hs, if_true] at h
        exact Except.noConfusion h
      | false =>
        simp only [derive_field_methods, hl, hm, hs, Bool.false_eq_true, if_false] at h
        exact methodsLoop_err_ne_unnamed h

theorem deriveFields_err_ne_unnamed {fields : List NamedField} {i : Nat}
    {sn : String} {gp : Args} {e : DeriveErr}
    (h : deriveFields fields i sn gp = .error e) : e ≠ .unnamedField := by
  induction fields generalizing i with
  | nil =>
    simp only [deriveFields] at h
    exact Except.noConfusion h
  | cons f rest ih =>
    cases hf : derive_field_methods f i sn gp with
    | error e' =>
      simp only [deriveFields, hf] at h
      injection h with h
      subst h
      exact derive_field_methods_err_ne_unnamed hf
    | ok ms =>
      cases hr : deriveFields rest (i + 1) sn gp with
      | error e' =>
        simp only [deriveFields, hf, hr] at h
        injection h with h
        subst h
        exact ih hr
      | ok more =>
        simp only [deriveFields, hf, hr] at h
        exact Except.noConfusion h

theorem deriveFields_ok_each {fields : List NamedField} {i : Nat}
    {sn : String} {gp : Args} {r : List GenMethod}
    (h : deriveFields fields i sn gp = .ok r) :
    ∀ f ∈ fields, ∃ j ms, derive_field_methods f j sn gp = .ok ms := by
  induction fields generalizing i r with
  | nil => intro f hf; cases hf
  | cons f0 rest ih =>
    intro f hf
    cases hf0 : derive_field_methods f0 i sn gp with
    | error e' =>
      simp only [deriveFields, hf0] at h
      exact Except.noConfusion h
    | ok ms =>
      cases hr : deriveFields rest (i + 1) sn gp with
      | error e' =>
        simp only [deriveFields, hf0, hr] at h
        exact Except.noConfusion h
      | ok more =>
        cases hf with
        | head => exact ⟨i, ms, hf0⟩
        | tail _ hmem => exact ih hr f hmem

end Getters

namespace Getters

theorem getArg_eq_none_of_not_hasKey {a : Args} {k : String}
    (h : hasKey a k = false) : getArg a k = none := by
  cases hx : getArg a k with
  | none => rfl
  | some v =>
    have hs : (getArg a k).isSome = true := by rw [hx]; rfl
    rw [getArg_isSome_eq_hasKey, h] at hs
    exact Bool.noConfusion hs

theorem optLit_ok_isSome {a : Args} {k : String} {o : Option String}
    (hk : hasKey a k = true) (h : optLit a k = .ok o) : o.isSome = true := by
  cases hg : getArg a k with
  | none =>
    have hs := getArg_isSome_eq_hasKey (a := a) (k := k)
    rw [hg, hk] at hs
    exact Bool.noConfusion hs
  | some v =>
    cases v with
    | flag =>
      simp only [optLit, hg, argToLit] at h
      exact Except.noConfusion h
    | lit s =>
      simp only [optLit, hg, argToLit] at h
      injection h with h
      subst h
      rfl

theorem optLitMain_ok_isSome {a : Args} {o : Option String}
    (hk : (hasKey a "as_copy" || hasKey a "as_clone") = true)
    (h : optLitMain a = .ok o) : o.isSome = true := by
  have hmA : (mainArg a).isSome = true := by
    unfold mainArg
    cases hg : getArg a "as_copy" with
    | some v => rfl
    | none =>
      have hc : hasKey a "as_copy" = false := by
        rw [← getArg_isSome_eq_hasKey, hg]
        rfl
      rw [hc, Bool.false_or] at hk
      rw [getArg_isSome_eq_hasKey]
      exact hk
  cases hg : mainArg a with
  | none => rw [hg] at hmA; exact Bool.noConfusion hmA
  | some v =>
    cases v with
    | flag =>
      simp only [optLitMain, hg, argToLit] at h
      exact Except.noConfusion h
    | lit s =>
      simp only [optLitMain, hg, argToLit] at h
      injection h with h
      subst h
      rfl

theorem optLit_of_getArg_lit {a : Args} {k s : String}
    (h : getArg a k = some (.lit s)) : optLit a k = .ok (some s) := by
  simp only [optLit, h, argToLit]

theorem optLit_of_getArg_none {a : Args} {k : String}
    (h : getArg a k = none) : optLit a k = .ok none := by
  simp only [optLit, h]

theorem defaultBorrow_of_none {a : Args}
    (h : (hasKey a "as_clone" || hasKey a "as_copy"
          || hasKey a "as_ref" || hasKey a "as_mut") = false) :
    defaultBorrow a = insertArg "as_ref" (.lit "_ref") a := by
  unfold defaultBorrow
  rw [h]
  rfl

theorem defaultBorrow_of_some {a : Args}
    (h : (hasKey a "as_clone" || hasKey a "as_copy"
          || hasKey a "as_ref" || hasKey a "as_mut") = true) :
    defaultBorrow a = a := by
  unfold defaultBorrow
  rw [h]
  rfl


theorem try_from_all_style_conflict {args : Args} {gl : Bool}
    (hall : hasKey args "all" = true)
    (hany : hasKey args "as_copy" = true ∨ hasKey args "as_clone" = true
      ∨ hasKey args "as_ref" = true ∨ hasKey args "as_mut" = true) :
    ∃ e, GetterDerive.try_from args gl = .error e := by
  cases hc : check args (reqFor gl) with
  | error e => exact ⟨e, by simp only [GetterDerive.try_from, hc]⟩
  | ok a0 =>
    have kall : hasKey a0 "all" = true := by rw [check_hasKey hc]; exact hall
    cases h3 : (hasKey a0 "as_clone" || hasKey a0 "as_ref" || hasKey a0 "as_mut") with
    | true =>
      have he : expandAll a0 = .error .allCombine := by
        simp only [expandAll, kall, h3, if_true]
      exact ⟨.allCombine, by simp only [GetterDerive.try_from, hc, he]⟩
    | false =>
      simp only [Bool.or_eq_false_iff] at h3
      obtain ⟨⟨kclone, kref⟩, kmut⟩ := h3
      have kcopy : hasKey a0 "as_copy" = true := by
        rcases hany with hx | hx | hx | hx
        · rw [check_hasKey hc]; exact hx
        · rw [check_hasKey hc, hx] at kclone; exact Bool.noConfusion kclone
        · rw [check_hasKey hc, hx] at kref; exact Bool.noConfusion kref
        · rw [check_hasKey hc, hx] at kmut; exact Bool.noConfusion kmut
      have hinner : (hasKey a0 "as_clone" || hasKey a0 "as_ref" || hasKey a0 "as_mut") = false := by
        rw [kclone, kref, kmut]
        rfl
      have he2 : expandAll a0
          = .ok (insertArg "as_mut" (.lit "_mut")
              (insertArg "as_ref" (.lit "_ref")
                (insertArg "as_clone" (.lit "") (removeArg "all" a0)))) := by
        simp only [expandAll, kall, hinner, if_true, Bool.false_eq_true, if_false]
      have kclone1 : hasKey (insertArg "as_mut" (ArgValue.lit "_mut")
          (insertArg "as_ref" (ArgValue.lit "_ref")
            (insertArg "as_clone" (ArgValue.lit "") (removeArg "all" a0)))) "as_clone" = true := by
        rw [hasKey_insertArg_ne (by decide), hasKey_insertArg_ne (by decide)]
        exact hasKey_insertArg_self
      have kcopy1 : hasKey (insertArg "as_mut" (ArgValue.lit "_mut")
          (insertArg "as_ref" (ArgValue.lit "_ref")
            (insertArg "as_clone" (ArgValue.lit "") (removeArg "all" a0)))) "as_copy" = true := by
        rw [hasKey_insertArg_ne (by decide), hasKey_insertArg_ne (by decide),
          hasKey_insertArg_ne (by decide), hasKey_removeArg_ne (by decide)]
        exact kcopy
      have hconj : (hasKey (insertArg "as_mut" (ArgValue.lit "_mut")
          (insertArg "as_ref" (ArgValue.lit "_ref")
            (insertArg "as_clone" (ArgValue.lit "") (removeArg "all" a0)))) "as_clone"
          && hasKey (insertArg "as_mut" (ArgValue.lit "_mut")
            (insertArg "as_ref" (ArgValue.lit "_ref")
              (insertArg "as_clone" (ArgValue.lit "") (removeArg "all" a0)))) "as_copy") = true := by
        rw [kclone1, kcopy1]
        rfl
      exact ⟨.cloneCopyConflict,
        by simp only [GetterDerive.try_from, hc, he2, hconj, if_true]⟩

end Getters

namespace Getters

/-- Claim C1 (counterexample): for the `Point` record with no type-level
configuration, field `x` annotated only `as_copy` and field `y`
unannotated, the configurable driver generates `x`, `x_ref` and `y_ref`:
the `as_copy`-annotated field `x` receives two methods, not exactly one,
because it additionally receives the `_ref` borrowing accessor inherited
from the mutated global parameter.  This refutes the claim as stated. -/
theorem claim1_counterexample :
    (derive c1input).map (fun r => r.methods.map GenMethod.name)
        = .ok ["x", "x_ref", "y_ref"]
      ∧ (derive c1input).map (fun r =>
            (r.methods.filter (fun gm => gm.fieldAccess == "x")).length) = .ok 2 := by
  constructor
  · decide
  · decide

/-- Claim C1 (amended): on the same record, the configurable driver
generates for the `as_copy`-annotated field `x` both the owned-copy
accessor `x` (empty suffix, by-value return) and the borrowing accessor
`x_ref` — the latter because the type-level validation pass mutably
inserts the default borrow style into the global configuration, which is
then merged into every field — while the unannotated field `y` receives
exactly one borrowing accessor `y_ref`. -/
theorem claim1_amended_generation :
    (derive c1input).map (fun r => r.methods.map
        (fun gm => (gm.name, gm.retPre, gm.retSuf, gm.mutReceiver, gm.fieldAccess)))
      = .ok [("x", "", "", false, "x"),
             ("x_ref", "&", "", false, "x"),
             ("y_ref", "&", "", false, "y")] := by
  decide

/-- Claim C6: for every enabled style (one whose suffix option is set),
the generated identifier is the concatenation `prefix ++ base ++ suffix`
where the base is the explicit `base_name` override when present and the
field's own name otherwise; a field with neither a name nor an override
is rejected with the unnamed-field error. -/
theorem claim6_name_computation :
    (∀ (g : GetterDerive) (m : GetterMethod) (fn : Option String) (s b : String),
        styleSuffix g m = some s → g.base = some b →
        g.getter_fn_ident m fn = .ok (g.pfx ++ b ++ s))
    ∧ (∀ (g : GetterDerive) (m : GetterMethod) (n s : String),
        styleSuffix g m = some s → g.base = none →
        g.getter_fn_ident m (some n) = .ok (g.pfx ++ n ++ s))
    ∧ (∀ (g : GetterDerive) (m : GetterMethod),
        g.base = none → g.getter_fn_ident m none = .error .unnamedField) := by
  refine ⟨?_, ?_, ?_⟩
  · intro g m fn s b hs hb
    simp only [GetterDerive.getter_fn_ident, hb, hs]
  · intro g m n s hs hb
    simp only [GetterDerive.getter_fn_ident, hb, hs]
  · intro g m hb
    simp only [GetterDerive.getter_fn_ident, hb]

/-- Witness for C6 at concrete configurations. -/
theorem claim6_witness :
    c6g.getter_fn_ident .AsRef none = .ok (c6g.pfx ++ "field" ++ "_ref")
      ∧ c6gNoBase.getter_fn_ident .AsRef (some "x") = .ok (c6gNoBase.pfx ++ "x" ++ "_ref")
      ∧ c6gNoBase.getter_fn_ident .AsRef none = .error .unnamedField :=
  ⟨claim6_name_computation.1 c6g .AsRef none "_ref" "field" rfl rfl,
   claim6_name_computation.2.1 c6gNoBase .AsRef "x" "_ref" rfl rfl,
   claim6_name_computation.2.2 c6gNoBase .AsRef rfl⟩

/-- Claim C7: whichever styles are enabled, `all_methods` lists them as a
sublist of the fixed sequence Main, AsRef, AsMut, so multiple methods for
one field are always emitted in that order. -/
theorem claim7_method_order (g : GetterDerive) :
    List.Sublist g.all_methods
      [GetterMethod.Main g.copy, GetterMethod.AsRef, GetterMethod.AsMut] := by
  unfold GetterDerive.all_methods
  cases g.main <;> cases g.as_ref <;> cases g.as_mut <;>
    simp only [Option.isSome_none, Option.isSome_some, Bool.false_eq_true, if_false,
      if_true, List.nil_append, List.append_nil, List.cons_append, List.singleton_append] <;>
    first
    | exact List.nil_sublist _
    | exact .cons _ (.cons _ (.cons₂ _ .slnil))
    | exact .cons _ (.cons₂ _ (.cons _ .slnil))
    | exact .cons _ (.cons₂ _ (.cons₂ _ .slnil))
    | exact .cons₂ _ (.cons _ (.cons _ .slnil))
    | exact .cons₂ _ (.cons _ (.cons₂ _ .slnil))
    | exact .cons₂ _ (.cons₂ _ (.cons _ .slnil))
    | exact .cons₂ _ (.cons₂ _ (.cons₂ _ .slnil))

/-- Witness for C7 at a concrete configuration. -/
theorem claim7_witness :
    List.Sublist c2g.all_methods
      [GetterMethod.Main c2g.copy, GetterMethod.AsRef, GetterMethod.AsMut] :=
  claim7_method_order c2g

/-- Claim C10: the unnamed-field error of `getter_fn_ident` is unreachable
from the public `derive` entry point: positional records are rejected as an
unsupported shape before any field is processed, and every processed field
is named. -/
theorem claim10_unnamed_unreachable (input : DeriveInput) :
    derive input ≠ Except.error DeriveErr.unnamedField := by
  intro h
  cases hg : GetterDerive.try_from input.attrs true with
  | error e =>
    simp only [derive, hg] at h
    injection h with h
    exact try_from_err_ne_unnamed hg h
  | ok pr =>
    cases pr with
    | mk g0 gp =>
    cases hd : input.data with
    | dstruct fk =>
      simp only [derive, hg, hd] at h
      cases fk with
      | named fs =>
        simp only [derive_struct_impl] at h
        cases hdf : deriveFields fs 0 input.ident gp with
        | error e =>
          simp only [hdf] at h
          injection h with h
          exact deriveFields_err_ne_unnamed hdf h
        | ok ms =>
          simp only [hdf] at h
          exact Except.noConfusion h
      | unnamed =>
        simp only [derive_struct_impl] at h
        injection h with h
        exact DeriveErr.noConfusion h
      | unit =>
        simp only [derive_struct_impl] at h
        injection h with h
        exact DeriveErr.noConfusion h
    | denum =>
      simp only [derive, hg, hd] at h
      injection h with h
      exact DeriveErr.noConfusion h
    | dunion =>
      simp only [derive, hg, hd] at h
      injection h with h
      exact DeriveErr.noConfusion h

/-- Witness for C10 at a concrete input. -/
theorem claim10_witness :
    derive c1input ≠ Except.error DeriveErr.unnamedField :=
  claim10_unnamed_unreachable c1input

end Getters

namespace Getters

/-- Claim C3: a field-level `skip` flag makes `derive_field_methods`
generate zero methods for that field whenever the field resolves at all,
whatever the other global or local settings; and a `skip` argument in the
type-level configuration always makes the whole derivation fail, because
the type-level schema does not know the `skip` argument. -/
theorem claim3_skip :
    (∀ (f : NamedField) (i : Nat) (sn : String) (gp : Args) (ms : List GenMethod),
        hasKey f.attrs "skip" = true →
        derive_field_methods f i sn gp = .ok ms → ms = [])
    ∧ (∀ input : DeriveInput, hasKey input.attrs "skip" = true →
        ∃ e, derive input = .error e) := by
  constructor
  · intro f i sn gp ms hskip h
    cases hl : GetterDerive.try_from f.attrs false with
    | error e =>
      simp only [derive_field_methods, hl] at h
      exact Except.noConfusion h
    | ok pr =>
      cases pr with
      | mk g0 lp =>
      have hlp : hasKey lp "skip" = true := by
        rw [(try_from_ok_skip hl).2]
        exact hskip
      cases hm : GetterDerive.try_from (mergeArgs gp lp) false with
      | error e =>
        simp only [derive_field_methods, hl, hm] at h
        exact Except.noConfusion h
      | ok pr2 =>
        cases pr2 with
        | mk getter a2 =>
        have hgs : getter.skip = true := by
          rw [(try_from_ok_skip hm).1, hasKey_mergeArgs, hlp, Bool.or_true]
        simp only [derive_field_methods, hl, hm, hgs, if_true] at h
        injection h with h
        exact h.symm
  · intro input hskip
    have hreq : getReq globalReq "skip" = none := by decide
    obtain ⟨e, he⟩ := check_err_of_unknown hskip hreq
    have he' : check input.attrs (reqFor true) = .error e := he
    refine ⟨e, ?_⟩
    simp only [derive, GetterDerive.try_from, he']

/-- Witness for C3: the skip field generates nothing, and skip at type
level errors, at concrete inputs. -/
theorem claim3_witness :
    (([] : List GenMethod) = [] ∧ ∃ e, derive c3input = .error e) :=
  ⟨claim3_skip.1 c3field 0 "S" [("as_ref", ArgValue.lit "_ref")] [] (by decide) (by decide),
   claim3_skip.2 c3input (by decide)⟩

/-- Claim C5: whenever both `as_copy` and `as_clone` are present in one
configuration — also when `as_clone` only appears through the expansion of
`all` — validation fails, and on the plain two-flag configuration the
error is exactly the conflicting-options message. -/
theorem claim5_copy_clone_conflict :
    (∀ (args : Args) (gl : Bool),
        hasKey args "as_copy" = true → hasKey args "as_clone" = true →
        ∃ e, GetterDerive.try_from args gl = .error e)
    ∧ (∀ (args : Args) (gl : Bool),
        hasKey args "all" = true → hasKey args "as_copy" = true →
        ∃ e, GetterDerive.try_from args gl = .error e)
    ∧ GetterDerive.try_from [("as_copy", ArgValue.flag), ("as_clone", ArgValue.flag)] false
        = .error .cloneCopyConflict := by
  refine ⟨?_, ?_, ?_⟩
  · intro args gl hcopy hclone
    cases hc : check args (reqFor gl) with
    | error e => exact ⟨e, by simp only [GetterDerive.try_from, hc]⟩
    | ok a0 =>
      have hcopy0 : hasKey a0 "as_copy" = true := by rw [check_hasKey hc]; exact hcopy
      have hclone0 : hasKey a0 "as_clone" = true := by rw [check_hasKey hc]; exact hclone
      cases hall : hasKey a0 "all" with
      | true =>
        have he : expandAll a0 = .error .allCombine := by
          simp only [expandAll, hall, hclone0, if_true, Bool.true_or]
        exact ⟨.allCombine, by simp only [GetterDerive.try_from, hc, he]⟩
      | false =>
        have he : expandAll a0 = .ok a0 := expandAll_ok_of_no_all hall
        have hcc : (hasKey a0 "as_clone" && hasKey a0 "as_copy") = true := by
          rw [hclone0, hcopy0]
          rfl
        exact ⟨.cloneCopyConflict,
          by simp only [GetterDerive.try_from, hc, he, hcc, if_true]⟩
  · intro args gl hall hcopy
    exact try_from_all_style_conflict hall (Or.inl hcopy)
  · decide

/-- Witness for C5 at the concrete two-flag configuration. -/
theorem claim5_witness :
    (∃ e, GetterDerive.try_from
        [("as_copy", ArgValue.flag), ("as_clone", ArgValue.flag)] true = .error e)
      ∧ (∃ e, GetterDerive.try_from
          [("all", ArgValue.flag), ("as_copy", ArgValue.flag)] true = .error e) :=
  ⟨claim5_copy_clone_conflict.1
      [("as_copy", ArgValue.flag), ("as_clone", ArgValue.flag)] true
      (by decide) (by decide),
   claim5_copy_clone_conflict.2.1
      [("all", ArgValue.flag), ("as_copy", ArgValue.flag)] true
      (by decide) (by decide)⟩

end Getters

namespace Getters

/-- Claim C2: a field-level validation pass whose argument map carries none
of the four style keys (nor the `all` shorthand that expands into them)
resolves to exactly one borrowing accessor with suffix `_ref`; and every
successfully resolved configuration without the skip flag enables at least
one accessor. -/
theorem claim2_default_borrow :
    (∀ (args : Args) (g : GetterDerive) (a' : Args),
        hasKey args "as_copy" = false → hasKey args "as_clone" = false →
        hasKey args "as_ref" = false → hasKey args "as_mut" = false →
        hasKey args "all" = false →
        GetterDerive.try_from args false = .ok (g, a') →
        g.all_methods = [GetterMethod.AsRef] ∧ g.as_ref = some "_ref")
    ∧ (∀ (args : Args) (gl : Bool) (g : GetterDerive) (a' : Args),
        GetterDerive.try_from args gl = .ok (g, a') → g.skip = false →
        g.all_methods ≠ []) := by
  constructor
  · intro args g a' h1 h2 h3 h4 h5 h
    obtain ⟨a0, a1, hc, he, hcc, ha', hb⟩ := try_from_ok h
    have kcopy : hasKey a0 "as_copy" = false := by rw [check_hasKey hc]; exact h1
    have kclone : hasKey a0 "as_clone" = false := by rw [check_hasKey hc]; exact h2
    have kref : hasKey a0 "as_ref" = false := by rw [check_hasKey hc]; exact h3
    have kmut : hasKey a0 "as_mut" = false := by rw [check_hasKey hc]; exact h4
    have kall : hasKey a0 "all" = false := by rw [check_hasKey hc]; exact h5
    rw [expandAll_ok_of_no_all kall] at he
    injection he with he
    subst he
    have hcond : (hasKey a0 "as_clone" || hasKey a0 "as_copy"
        || hasKey a0 "as_ref" || hasKey a0 "as_mut") = false := by
      rw [kclone, kcopy, kref, kmut]
      rfl
    rw [defaultBorrow_of_none hcond] at hb
    obtain ⟨hskip, hcopy, hmain, href, hmut, hbase⟩ := buildGetter_ok hb
    have gr : g.as_ref = some "_ref" := by
      rw [optLit_of_getArg_lit getArg_insertArg_self] at href
      injection href with href
      exact href.symm
    have gcopynone : getArg (insertArg "as_ref" (ArgValue.lit "_ref") a0) "as_copy" = none := by
      rw [getArg_insertArg_ne (by decide)]
      exact getArg_eq_none_of_not_hasKey kcopy
    have gclonenone : getArg (insertArg "as_ref" (ArgValue.lit "_ref") a0) "as_clone" = none := by
      rw [getArg_insertArg_ne (by decide)]
      exact getArg_eq_none_of_not_hasKey kclone
    have gm : g.main = none := by
      have hmA : mainArg (insertArg "as_ref" (ArgValue.lit "_ref") a0) = none := by
        unfold mainArg
        rw [gcopynone, gclonenone]
      have : optLitMain (insertArg "as_ref" (ArgValue.lit "_ref") a0) = .ok none := by
        simp only [optLitMain, hmA]
      rw [this] at hmain
      injection hmain with hmain
      exact hmain.symm
    have gmu : g.as_mut = none := by
      have : getArg (insertArg "as_ref" (ArgValue.lit "_ref") a0) "as_mut" = none := by
        rw [getArg_insertArg_ne (by decide)]
        exact getArg_eq_none_of_not_hasKey kmut
      rw [optLit_of_getArg_none this] at hmut
      injection hmut with hmut
      exact hmut.symm
    refine ⟨?_, gr⟩
    unfold GetterDerive.all_methods
    rw [gm, gr, gmu]
    rfl
  · intro args gl g a' h hskipf
    obtain ⟨a0, a1, hc, he, hcc, ha', hb⟩ := try_from_ok h
    obtain ⟨hskip, hcopy, hmain, href, hmut, hbase⟩ := buildGetter_ok hb
    apply all_methods_ne_nil
    cases hdef : (hasKey a1 "as_clone" || hasKey a1 "as_copy"
        || hasKey a1 "as_ref" || hasKey a1 "as_mut") with
    | false =>
      have hga : getArg (defaultBorrow a1) "as_ref" = some (.lit "_ref") := by
        rw [defaultBorrow_of_none hdef]
        exact getArg_insertArg_self
      rw [optLit_of_getArg_lit hga] at href
      injection href with href
      rw [← href]
      simp
    | true =>
      rw [defaultBorrow_of_some hdef] at href hmut hmain
      simp only [Bool.or_eq_true] at hdef
      rcases hdef with ((hcl | hcp) | hrf) | hmu
      · have hk : (hasKey a1 "as_copy" || hasKey a1 "as_clone") = true := by
          rw [hcl, Bool.or_true]
        have := optLitMain_ok_isSome hk hmain
        simp [this]
      · have hk : (hasKey a1 "as_copy" || hasKey a1 "as_clone") = true := by
          rw [hcp, Bool.true_or]
        have := optLitMain_ok_isSome hk hmain
        simp [this]
      · have := optLit_ok_isSome hrf href
        simp [this]
      · have := optLit_ok_isSome hmu hmut
        simp [this]

/-- Witness for C2: the empty argument map resolves to the single `_ref`
borrowing accessor. -/
theorem claim2_witness :
    (c2g.all_methods = [GetterMethod.AsRef] ∧ c2g.as_ref = some "_ref")
      ∧ c2g.all_methods ≠ [] :=
  ⟨claim2_default_borrow.1 [] c2g [("as_ref", ArgValue.lit "_ref")]
      (by decide) (by decide) (by decide) (by decide) (by decide) (by decide),
   claim2_default_borrow.2 [] false c2g [("as_ref", ArgValue.lit "_ref")]
      (by decide) (by decide)⟩

end Getters

namespace Getters

/-- Claim C4: a configuration carrying the `all` flag and none of the four
explicit style keys resolves to exactly the three styles owned-clone
(empty suffix), borrow (`_ref`) and mutable borrow (`_mut`); and `all`
combined with any of the four explicit style keys is always rejected
(with the dedicated combination error for `as_clone`/`as_ref`/`as_mut`,
and through the copy/clone conflict raised after the expansion for
`as_copy`). -/
theorem claim4_all :
    (∀ (args : Args) (g : GetterDerive) (a' : Args),
        hasKey args "all" = true →
        hasKey args "as_copy" = false → hasKey args "as_clone" = false →
        hasKey args "as_ref" = false → hasKey args "as_mut" = false →
        GetterDerive.try_from args false = .ok (g, a') →
        g.all_methods = [GetterMethod.Main false, GetterMethod.AsRef, GetterMethod.AsMut]
          ∧ g.main = some "" ∧ g.as_ref = some "_ref" ∧ g.as_mut = some "_mut"
          ∧ g.copy = false)
    ∧ (∀ (args : Args) (gl : Bool),
        hasKey args "all" = true →
        (hasKey args "as_copy" = true ∨ hasKey args "as_clone" = true
          ∨ hasKey args "as_ref" = true ∨ hasKey args "as_mut" = true) →
        ∃ e, GetterDerive.try_from args gl = .error e) := by
  constructor
  · intro args g a' hall h1 h2 h3 h4 h
    obtain ⟨a0, a1, hc, he, hcc, ha', hb⟩ := try_from_ok h
    have kall : hasKey a0 "all" = true := by rw [check_hasKey hc]; exact hall
    have kcopy : hasKey a0 "as_copy" = false := by rw [check_hasKey hc]; exact h1
    have kclone : hasKey a0 "as_clone" = false := by rw [check_hasKey hc]; exact h2
    have kref : hasKey a0 "as_ref" = false := by rw [check_hasKey hc]; exact h3
    have kmut : hasKey a0 "as_mut" = false := by rw [check_hasKey hc]; exact h4
    have hinner : (hasKey a0 "as_clone" || hasKey a0 "as_ref" || hasKey a0 "as_mut") = false := by
      rw [kclone, kref, kmut]
      rfl
    have he2 : expandAll a0
        = .ok (insertArg "as_mut" (.lit "_mut")
            (insertArg "as_ref" (.lit "_ref")
              (insertArg "as_clone" (.lit "") (removeArg "all" a0)))) := by
      simp only [expandAll, kall, hinner, if_true, Bool.false_eq_true, if_false]
    rw [he2] at he
    injection he with he
    have gmut : getArg a1 "as_mut" = some (.lit "_mut") := by
      rw [← he]
      exact getArg_insertArg_self
    have gref : getArg a1 "as_ref" = some (.lit "_ref") := by
      rw [← he, getArg_insertArg_ne (by decide)]
      exact getArg_insertArg_self
    have gclone : getArg a1 "as_clone" = some (.lit "") := by
      rw [← he, getArg_insertArg_ne (by decide), getArg_insertArg_ne (by decide)]
      exact getArg_insertArg_self
    have gcopy : getArg a1 "as_copy" = none := by
      rw [← he, getArg_insertArg_ne (by decide), getArg_insertArg_ne (by decide),
        getArg_insertArg_ne (by decide), getArg_removeArg_ne (by decide)]
      exact getArg_eq_none_of_not_hasKey kcopy
    have kclone1 : hasKey a1 "as_clone" = true := by
      rw [← getArg_isSome_eq_hasKey, gclone]
      rfl
    have kcopy1 : hasKey a1 "as_copy" = false := by
      rw [← getArg_isSome_eq_hasKey, gcopy]
      rfl
    have hcond : (hasKey a1 "as_clone" || hasKey a1 "as_copy"
        || hasKey a1 "as_ref" || hasKey a1 "as_mut") = true := by
      rw [kclone1]
      simp
    rw [defaultBorrow_of_some hcond] at hb
    obtain ⟨hskip, hcopyEq, hmain, href, hmut, hbase⟩ := buildGetter_ok hb
    have gcEq : g.copy = false := by rw [hcopyEq]; exact kcopy1
    have gmEq : g.main = some "" := by
      have hmA : mainArg a1 = some (.lit "") := by
        unfold mainArg
        rw [gcopy, gclone]
      have : optLitMain a1 = .ok (some "") := by
        simp only [optLitMain, hmA, argToLit]
      rw [this] at hmain
      injection hmain with hmain
      exact hmain.symm
    have grEq : g.as_ref = some "_ref" := by
      rw [optLit_of_getArg_lit gref] at href
      injection href with href
      exact href.symm
    have gmuEq : g.as_mut = some "_mut" := by
      rw [optLit_of_getArg_lit gmut] at hmut
      injection hmut with hmut
      exact hmut.symm
    refine ⟨?_, gmEq, grEq, gmuEq, gcEq⟩
    unfold GetterDerive.all_methods
    rw [gmEq, grEq, gmuEq, gcEq]
    rfl
  · intro args gl hall hany
    exact try_from_all_style_conflict hall hany

/-- Witness for C4: the bare `all` flag expands to the three styles, and
`all` together with `as_copy` is rejected, at concrete inputs. -/
theorem claim4_witness :
    (c4g.all_methods = [GetterMethod.Main false, GetterMethod.AsRef, GetterMethod.AsMut]
        ∧ c4g.main = some "" ∧ c4g.as_ref = some "_ref" ∧ c4g.as_mut = some "_mut"
        ∧ c4g.copy = false)
      ∧ ∃ e, GetterDerive.try_from [("all", ArgValue.flag), ("as_copy", ArgValue.flag)] false
          = .error e :=
  ⟨claim4_all.1 [("all", ArgValue.flag)] c4g
      [("as_mut", ArgValue.lit "_mut"), ("as_ref", ArgValue.lit "_ref"),
       ("as_clone", ArgValue.lit "")]
      (by decide) (by decide) (by decide) (by decide) (by decide) (by decide),
   claim4_all.2 [("all", ArgValue.flag), ("as_copy", ArgValue.flag)] false
      (by decide) (Or.inl (by decide))⟩

end Getters

namespace Getters

/-- Claim C8: enums, unions, tuple structs and unit structs are always
rejected by `derive`; and a successful derivation implies every field was
processed successfully against the validated global parameter, so any
field failure aborts the whole generation with no partial output. -/
theorem claim8_all_or_nothing :
    (∀ input : DeriveInput, input.data = .denum → ∃ e, derive input = .error e)
    ∧ (∀ input : DeriveInput, input.data = .dunion → ∃ e, derive input = .error e)
    ∧ (∀ input : DeriveInput, input.data = .dstruct .unnamed → ∃ e, derive input = .error e)
    ∧ (∀ input : DeriveInput, input.data = .dstruct .unit → ∃ e, derive input = .error e)
    ∧ (∀ (input : DeriveInput) (fields : List NamedField) (r : ImplBlock),
        input.data = .dstruct (.named fields) → derive input = .ok r →
        ∃ g0 gp, GetterDerive.try_from input.attrs true = .ok (g0, gp)
          ∧ ∀ f ∈ fields, ∃ j ms, derive_field_methods f j input.ident gp = .ok ms) := by
  refine ⟨?_, ?_, ?_, ?_, ?_⟩
  · intro input hd
    cases hg : GetterDerive.try_from input.attrs true with
    | error e => exact ⟨e, by simp only [derive, hg]⟩
    | ok pr =>
      cases pr with
      | mk g0 gp => exact ⟨.notSupportedEnums, by simp only [derive, hg, hd]⟩
  · intro input hd
    cases hg : GetterDerive.try_from input.attrs true with
    | error e => exact ⟨e, by simp only [derive, hg]⟩
    | ok pr =>
      cases pr with
      | mk g0 gp => exact ⟨.notSupportedUnions, by simp only [derive, hg, hd]⟩
  · intro input hd
    cases hg : GetterDerive.try_from input.attrs true with
    | error e => exact ⟨e, by simp only [derive, hg]⟩
    | ok pr =>
      cases pr with
      | mk g0 gp =>
        exact ⟨.tupleStructs, by simp only [derive, hg, hd, derive_struct_impl]⟩
  · intro input hd
    cases hg : GetterDerive.try_from input.attrs true with
    | error e => exact ⟨e, by simp only [derive, hg]⟩
    | ok pr =>
      cases pr with
      | mk g0 gp =>
        exact ⟨.unitStructs, by simp only [derive, hg, hd, derive_struct_impl]⟩
  · intro input fields r hd h
    cases hg : GetterDerive.try_from input.attrs true with
    | error e =>
      simp only [derive, hg] at h
      exact Except.noConfusion h
    | ok pr =>
      cases pr with
      | mk g0 gp =>
      simp only [derive, hg, hd, derive_struct_impl] at h
      cases hdf : deriveFields fields 0 input.ident gp with
      | error e =>
        simp only [hdf] at h
        exact Except.noConfusion h
      | ok ms => exact ⟨g0, gp, rfl, deriveFields_ok_each hdf⟩

/-- Witness for C8 at concrete inputs of each rejected shape and a
concrete successful derivation. -/
theorem claim8_witness :
    (∃ e, derive c8enum = .error e)
      ∧ (∃ e, derive c8union = .error e)
      ∧ (∃ e, derive c8tuple = .error e)
      ∧ (∃ e, derive c8unit = .error e)
      ∧ (∃ g0 gp, GetterDerive.try_from c8empty.attrs true = .ok (g0, gp)
          ∧ ∀ f ∈ ([] : List NamedField),
              ∃ j ms, derive_field_methods f j c8empty.ident gp = .ok ms) :=
  ⟨claim8_all_or_nothing.1 c8enum rfl,
   claim8_all_or_nothing.2.1 c8union rfl,
   claim8_all_or_nothing.2.2.1 c8tuple rfl,
   claim8_all_or_nothing.2.2.2.1 c8unit rfl,
   claim8_all_or_nothing.2.2.2.2 c8empty []
      { struct_name := "S", generics := "", methods := [] } rfl (by decide)⟩

/-- Claim C9: the simple driver emits, for a record with named fields,
exactly one borrowing accessor per field, named identically to the field,
returning an immutable reference. -/
theorem claim9_simple_driver :
    ∀ (input : DeriveInput) (fields : List NamedField),
      input.data = .dstruct (.named fields) →
      ∃ r, simple_derive input = .ok r
        ∧ r.methods.map GenMethod.name = fields.map NamedField.name
        ∧ ∀ gm ∈ r.methods,
            gm.retPre = "&" ∧ gm.mutReceiver = false ∧ gm.retSuf = "" := by
  intro input fields hd
  obtain ⟨id, gen, attrs, data⟩ := input
  replace hd : data = Data.dstruct (.named fields) := hd
  subst hd
  refine ⟨_, rfl, ?_, ?_⟩
  · rw [List.map_map]
    rfl
  · intro gm hgm
    rw [List.mem_map] at hgm
    obtain ⟨f, hf, rfl⟩ := hgm
    exact ⟨rfl, rfl, rfl⟩

/-- Witness for C9 at the concrete `Point` record. -/
theorem claim9_witness :
    ∃ r, simple_derive c9input = .ok r
      ∧ r.methods.map GenMethod.name
          = List.map NamedField.name
              [{ name := "x", ty := "int", attrs := [], doc := none },
               { name := "y", ty := "int", attrs := [], doc := none }]
      ∧ ∀ gm ∈ r.methods,
          gm.retPre = "&" ∧ gm.mutReceiver = false ∧ gm.retSuf = "" :=
  claim9_simple_driver c9input
    [{ name := "x", ty := "int", attrs := [], doc := none },
     { name := "y", ty := "int", attrs := [], doc := none }] rfl

end Getters
